import Mathlib

set_option maxHeartbeats 1000000

/-!
Verification development for the finance MCP server
(`finance_tools_pro.py`, together with the month-bound helpers that are
duplicated in `finance_tools.py`).  The Python code is shallowly embedded:
pandas frames become association-list tables, pandas timestamps become a
calendar record, `float` money values become rationals, NaN/NaT become an
explicit missing value, and raising code returns `Except`.
-/

namespace FinanceTools

/-! ## Timestamps -/

/-- Calendar timestamp at second resolution, modelling the
`pandas.Timestamp` values the code manipulates. -/
structure Timestamp where
  year : Nat
  month : Nat
  day : Nat
  hour : Nat
  minute : Nat
  second : Nat
deriving DecidableEq, Repr

/-- Monotone encoding of a timestamp: lexicographic on the six fields for
calendar-valid values (`month < 13`, `day < 32`). -/
def tsKey (t : Timestamp) : Nat :=
  ((((t.year * 13 + t.month) * 32 + t.day) * 24 + t.hour) * 60 + t.minute) * 60 + t.second

/-- Timestamp comparison, as used by the pandas filters `>= start` / `<= end`. -/
def tsLe (a b : Timestamp) : Bool := decide (tsKey a ≤ tsKey b)

def isLeap (y : Nat) : Bool := (y % 4 == 0 && y % 100 != 0) || y % 400 == 0

def daysInMonth (y m : Nat) : Nat :=
  if m = 2 then (if isLeap y then 29 else 28)
  else if m = 4 ∨ m = 6 ∨ m = 9 ∨ m = 11 then 30
  else 31

/-- `t + pandas.offsets.MonthEnd(1)`: roll forward to the last day of the
current month keeping the time of day; a timestamp already on a month end
rolls to the next month's end. -/
def addMonthEnd1 (t : Timestamp) : Timestamp :=
  if t.day = daysInMonth t.year t.month then
    (if t.month = 12 then { t with year := t.year + 1, month := 1, day := 31 }
     else { t with month := t.month + 1, day := daysInMonth t.year (t.month + 1) })
  else { t with day := daysInMonth t.year t.month }

/-- `_month_bounds` (identical in both finance modules): the first instant of
the month and `start + MonthEnd(1)`. -/
def month_bounds (y m : Nat) : Timestamp × Timestamp :=
  (⟨y, m, 1, 0, 0, 0⟩, addMonthEnd1 ⟨y, m, 1, 0, 0, 0⟩)

/-- A parsed `date_range` argument: a single `YYYY-MM` month, or `A..B`. -/
inductive DateRange where
  | single (ym : Nat × Nat)
  | span (a b : Nat × Nat)
deriving DecidableEq

/-- `_date_range_bounds` / `_range_bounds`: split on `..`; a span takes the
start of month `A` and the `MonthEnd` bound of month `B`. -/
def date_range_bounds : DateRange → Timestamp × Timestamp
  | .single ym => month_bounds ym.1 ym.2
  | .span a b => ((month_bounds a.1 a.2).1, (month_bounds b.1 b.2).2)

/-! ## Cells, rows, tables -/

/-- A dynamically typed pandas cell: text, number, timestamp, or NaN/NaT. -/
inductive Cell where
  | str (s : String)
  | num (q : ℚ)
  | ts (t : Timestamp)
  | missing
deriving DecidableEq, Repr

def parseDigitsAux : Option Nat → List Char → Option Nat
  | acc, [] => acc
  | acc, c :: r =>
      if c.isDigit then parseDigitsAux (some ((acc.getD 0) * 10 + (c.toNat - 48))) r
      else none

/-- Simplified model of `pd.to_numeric(..., errors="coerce")` on a string:
an optionally signed run of digits parses, anything else coerces to NaN. -/
def parseNumStr (s : String) : Option ℚ :=
  match s.data with
  | '-' :: rest => (parseDigitsAux none rest).map (fun n => -(n : ℚ))
  | l => (parseDigitsAux none l).map (fun n => (n : ℚ))

/-- `pd.to_numeric(..., errors="coerce")` on a cell: numbers pass through,
strings best-effort parse, everything else becomes NaN (`none`). -/
def toNumeric : Cell → Option ℚ
  | .num q => some q
  | .str s => parseNumStr s
  | .ts _ => none
  | .missing => none

/-- `pd.to_numeric(...).fillna(0)`. -/
def numOr0 (c : Cell) : ℚ := (toNumeric c).getD 0

/-- `astype(str)` on a cell, used by the customer filter and by
`invoice_lines`; NaN renders as `nan` like in pandas. -/
def cellStr : Cell → String
  | .str s => s
  | .num q => toString q
  | .ts _ => "timestamp"
  | .missing => "nan"

abbrev ColName := String

/-- A row is an association list from (normalized) column name to cell;
a column absent from the row reads as missing. -/
abbrev Row := List (ColName × Cell)

def getCell (r : Row) (c : ColName) : Cell :=
  match r with
  | [] => .missing
  | (k, v) :: rest => if k = c then v else getCell rest c

/-- A pandas DataFrame after `_norm_cols`: the (normalized) column names
plus the row records. -/
structure Table where
  cols : List ColName
  rows : List Row
deriving DecidableEq, Repr

def emptyTable : Table := ⟨[], []⟩

/-- `to_datetime(..., errors="coerce")` on a cell: already-parsed timestamps
stay, anything unparseable becomes NaT.  (String date parsing is abstracted:
concrete tables in this development carry `Cell.ts` values directly.) -/
def coerceTs : Cell → Cell
  | .ts x => .ts x
  | _ => .missing

/-! ## Schema and inference (`SYNONYMS`, `_choose_best`, `_infer_schema`,
`_score_schema`) -/

/-- The 8-role schema record from `finance_tools_pro.py`. -/
structure Schema where
  invoice_id : Option ColName := none
  date : Option ColName := none
  quantity : Option ColName := none
  unit_price : Option ColName := none
  line_total : Option ColName := none
  customer : Option ColName := none
  country : Option ColName := none
  description : Option ColName := none
deriving DecidableEq, Repr

def synInvoiceId : List ColName :=
  ["invoice no", "invoiceno", "invoice", "invoice number", "orderid", "order id",
   "order no", "billno", "bill no", "inv no", "invno", "document number"]

def synDate : List ColName :=
  ["invoicedate", "invoice date", "date", "order date", "document date", "posting date"]

def synQuantity : List ColName :=
  ["quantity", "qty", "qty.", "qnty", "units", "count"]

def synUnitPrice : List ColName :=
  ["unitprice", "unit price", "price", "rate", "unit cost", "cost"]

def synLineTotal : List ColName :=
  ["linetotal", "line total", "amount", "total", "value", "net amount",
   "gross amount", "subtotal"]

def synCustomer : List ColName :=
  ["customerid", "customer id", "customer", "client", "account", "buyer",
   "party", "sold-to", "sold to", "customer code", "customer no"]

def synCountry : List ColName :=
  ["country", "region", "market"]

def synDescription : List ColName :=
  ["description", "item", "product", "sku name", "name", "details"]

/-- The `SYNONYMS` dict in its insertion order. -/
def roleSynonyms : List (String × List ColName) :=
  [("invoice_id", synInvoiceId), ("date", synDate), ("quantity", synQuantity),
   ("unit_price", synUnitPrice), ("line_total", synLineTotal),
   ("customer", synCustomer), ("country", synCountry), ("description", synDescription)]

/-- `_choose_best`: the first synonym (in the listed order) present among
the columns. -/
def choose_best (cols : List ColName) : List ColName → Option ColName
  | [] => none
  | k :: ks => if k ∈ cols then some k else choose_best cols ks

/-- `_infer_schema` applied to a column list. -/
def infer_schema (cols : List ColName) : Schema :=
  { invoice_id := choose_best cols synInvoiceId
    date := choose_best cols synDate
    quantity := choose_best cols synQuantity
    unit_price := choose_best cols synUnitPrice
    line_total := choose_best cols synLineTotal
    customer := choose_best cols synCustomer
    country := choose_best cols synCountry
    description := choose_best cols synDescription }

/-- `_score_schema`: the number of roles with at least one synonym present. -/
def score_schema (cols : List ColName) : Nat :=
  (roleSynonyms.map (fun rs => if rs.2.any (fun s => decide (s ∈ cols)) then 1 else 0)).sum

/-- The Python truthiness-and-membership test
`sch.role and sch.role in df.columns`. -/
def roleIn : Option ColName → List ColName → Bool
  | none, _ => false
  | some c, cols => decide (c ∈ cols)

/-! ## Generic list helpers used by the embedding -/

/-- First-seen deduplication (the order `pandas.unique` and first-seen
group keys use). -/
def dedupAcc {α : Type} [DecidableEq α] : List α → List α → List α
  | acc, [] => acc.reverse
  | acc, x :: xs => if x ∈ acc then dedupAcc acc xs else dedupAcc (x :: acc) xs

def dedupFirst {α : Type} [DecidableEq α] (l : List α) : List α := dedupAcc [] l

/-- Insert into a list kept in descending `key` order. -/
def insertDescBy {α β : Type} [LinearOrder β] (key : α → β) (x : α) : List α → List α
  | [] => [x]
  | y :: ys => if key y < key x then x :: y :: ys else y :: insertDescBy key x ys

/-- Sort a list into descending `key` order (`sort_values(ascending=False)`,
with missing keys mapped below every real key by the caller). -/
def sortDescBy {α β : Type} [LinearOrder β] (key : α → β) : List α → List α
  | [] => []
  | x :: xs => insertDescBy key x (sortDescBy key xs)

/-- `Series.sum()` with pandas' default `skipna=True`. -/
def sumOpt (l : List (Option ℚ)) : ℚ := (l.filterMap id).sum

/-- Minimum of a list of timestamps (`groupby(...).min()`, NaT skipped). -/
def minTs (l : List Timestamp) : Option Timestamp :=
  l.foldl (fun acc x =>
    match acc with
    | none => some x
    | some a => if tsKey x < tsKey a then some x else some a) none

def cellTs : Cell → Option Timestamp
  | .ts t => some t
  | _ => none

/-! ## Query-engine building blocks -/

/-- Returns filter of `get_invoices` / `summarize_transactions`: with
`include_returns=False` and a present quantity role, keep rows whose
numeric quantity (NaN filled with 0) is `>= 0`. -/
def filterReturns : Bool → Schema → Table → Table
  | true, _, t => t
  | false, sch, t =>
    match sch.quantity with
    | some q =>
        if q ∈ t.cols then
          { t with rows := t.rows.filter (fun r => decide (0 ≤ numOr0 (getCell r q))) }
        else t
    | none => t

/-- Month-window filter of `summarize_transactions`:
`(df[date] >= start) & (df[date] <= end)`; NaT compares false. -/
def filterMonth (dcol : ColName) (y m : Nat) (t : Table) : Table :=
  { t with rows := t.rows.filter (fun r =>
      match getCell r dcol with
      | .ts x => tsLe (month_bounds y m).1 x && tsLe x (month_bounds y m).2
      | _ => false) }

/-- Date-range filter of `get_invoices`: a no-op without a `date_range`
argument or without a present date role. -/
def filterDateRange (dr : Option DateRange) (sch : Schema) (t : Table) : Table :=
  match dr, sch.date with
  | some r, some dcol =>
      if dcol ∈ t.cols then
        { t with rows := t.rows.filter (fun row =>
            match getCell row dcol with
            | .ts x => tsLe (date_range_bounds r).1 x && tsLe x (date_range_bounds r).2
            | _ => false) }
      else t
  | _, _ => t

/-- Customer filter of `get_invoices`: string-compare the customer column. -/
def filterCustomer (cust : Option String) (sch : Schema) (t : Table) : Table :=
  match cust, sch.customer with
  | some c, some ccol =>
      if ccol ∈ t.cols then
        { t with rows := t.rows.filter (fun r => decide (cellStr (getCell r ccol) = c)) }
      else t
  | _, _ => t

/-- NaN-propagating product (`to_numeric(qty) * to_numeric(price)` without
`fillna`). -/
def optMul : Option ℚ → Option ℚ → Option ℚ
  | some a, some b => some (a * b)
  | _, _ => none

/-- The `quantity * unit_price` cell of the synthetic `__computed_total__`
column: NaN when either factor coerces to NaN. -/
def mulCells (a b : Cell) : Cell :=
  match toNumeric a, toNumeric b with
  | some x, some y => .num (x * y)
  | _, _ => .missing

/-- Fallback branch of the `get_invoices` totals pick: the quantity/price
product when both roles are present, else the constant `1.0` per row. -/
def productGI (sch : Schema) (t : Table) : List (Option ℚ) :=
  match sch.quantity, sch.unit_price with
  | some q, some p =>
      if q ∈ t.cols ∧ p ∈ t.cols then
        t.rows.map (fun r => optMul (toNumeric (getCell r q)) (toNumeric (getCell r p)))
      else t.rows.map (fun _ => some 1)
  | _, _ => t.rows.map (fun _ => some 1)

/-- Totals pick of `get_invoices` (lines 321-330): prefer the `line_total`
column, else the product, else `1.0` per row. -/
def resolveTotalsGI (sch : Schema) (t : Table) : List (Option ℚ) :=
  match sch.line_total with
  | some lt =>
      if lt ∈ t.cols then t.rows.map (fun r => toNumeric (getCell r lt))
      else productGI sch t
  | none => productGI sch t

/-- Fallback branch of the `summarize_transactions` totals pick, which
fills NaN with 0 before multiplying. -/
def productSum (sch : Schema) (t : Table) : List ℚ :=
  match sch.quantity, sch.unit_price with
  | some q, some p =>
      if q ∈ t.cols ∧ p ∈ t.cols then
        t.rows.map (fun r => numOr0 (getCell r q) * numOr0 (getCell r p))
      else t.rows.map (fun _ => 1)
  | _, _ => t.rows.map (fun _ => 1)

/-- Totals pick of `summarize_transactions` (lines 441-447). -/
def resolveTotalsSum (sch : Schema) (t : Table) : List ℚ :=
  match sch.line_total with
  | some lt =>
      if lt ∈ t.cols then t.rows.map (fun r => numOr0 (getCell r lt))
      else productSum sch t
  | none => productSum sch t

/-! ## Invoice aggregation (`get_invoices`) -/

/-- One output record of `get_invoices`.  The real code renders
`invoice_date` through `strftime("%Y-%m-%d %H:%M:%S")`, a rendering on
which lexicographic string order equals timestamp order, so the timestamp
itself is kept here. -/
structure InvoiceAgg where
  invoice_id : Cell
  total_amount : ℚ
  line_count : Nat
  invoice_date : Option Timestamp
  customer : Option Cell
  country : Option Cell
deriving DecidableEq, Repr

/-- `group_key = sch.invoice_id if sch.invoice_id in df.columns else None`
(`None in df.columns` is false). -/
def groupColOf (sch : Schema) (t : Table) : Option ColName :=
  match sch.invoice_id with
  | some c => if c ∈ t.cols then some c else none
  | none => none

/-- Aggregate one group: summed total (NaN skipped), row count, minimum
date, first-seen customer/country. -/
def aggFor (sch : Schema) (cols : List ColName) (k : Cell)
    (mem : List (Row × Option ℚ)) : InvoiceAgg :=
  { invoice_id := k
    total_amount := sumOpt (mem.map (fun pr => pr.2))
    line_count := mem.length
    invoice_date :=
      match sch.date with
      | some d => if d ∈ cols then minTs ((mem.map (fun pr => pr.1)).filterMap (fun r => cellTs (getCell r d))) else none
      | none => none
    customer :=
      match sch.customer with
      | some c => if c ∈ cols then some (getCell ((mem.map (fun pr => pr.1)).headD []) c) else none
      | none => none
    country :=
      match sch.country with
      | some c => if c ∈ cols then some (getCell ((mem.map (fun pr => pr.1)).headD []) c) else none
      | none => none }

/-- Group the filtered rows (paired with their picked totals) by invoice id,
or by a synthetic 0-based row id when no invoice-id role is usable.
`groupby` drops missing group keys. -/
def groupAggs (sch : Schema) (t : Table) (totals : List (Option ℚ)) : List InvoiceAgg :=
  let prs := t.rows.zip totals
  match groupColOf sch t with
  | some g =>
      let keys := (dedupFirst (t.rows.map (fun r => getCell r g))).filter
        (fun k => decide (k ≠ Cell.missing))
      keys.map (fun k => aggFor sch t.cols k (prs.filter (fun pr => decide (getCell pr.1 g = k))))
  | none =>
      prs.enum.map (fun ip => aggFor sch t.cols (Cell.num ip.1) [ip.2])

/-- Descending sort key on `invoice_date`; a missing date renders as NaN and
is placed after every real date by `sort_values(ascending=False)`. -/
def sortKeyDate (a : InvoiceAgg) : ℤ :=
  match a.invoice_date with
  | some t => (tsKey t : ℤ)
  | none => -1

/-- The `get_invoices` tool: filters, totals pick, grouping, descending
sort, truncation. -/
def get_invoices_core (sch : Schema) (t : Table) (dr : Option DateRange)
    (cust : Option String) (ir : Bool) (mr : Nat) : List InvoiceAgg :=
  let t1 := filterReturns ir sch t
  let t2 := filterDateRange dr sch t1
  let t3 := filterCustomer cust sch t2
  if t3.rows.isEmpty then []
  else
    let totals := resolveTotalsGI sch t3
    let aggs := groupAggs sch t3 totals
    let sorted :=
      if roleIn sch.date t3.cols then sortDescBy sortKeyDate aggs
      else sortDescBy (fun a => a.total_amount) aggs
    sorted.take mr

/-! ## `list_months`, `summarize_transactions`, `invoice_lines` -/

/-- `list_months`: distinct `YYYY-MM` periods of the date column, newest
first, truncated. -/
def list_months_core (sch : Schema) (t : Table) (limit : Nat) : List (Nat × Nat) :=
  match sch.date with
  | some dcol =>
      if dcol ∈ t.cols then
        (sortDescBy (fun ym => ym.1 * 13 + ym.2)
          (dedupFirst (t.rows.filterMap
            (fun r => (cellTs (getCell r dcol)).map (fun x => (x.year, x.month)))))).take limit
      else []
  | none => []

/-- Rows that feed the `summarize_transactions` aggregation: month window
first, then the returns filter. -/
def summarizeRows (sch : Schema) (dcol : ColName) (y m : Nat) (ir : Bool) (t : Table) : Table :=
  filterReturns ir sch (filterMonth dcol y m t)

/-- Top customers: group the month's totals by the customer column, rank
descending, keep `topN`. -/
def topClients (ccol : ColName) (t : Table) (totals : List ℚ) (topN : Nat) :
    List (Cell × ℚ) :=
  let prs := t.rows.zip totals
  let keys := (dedupFirst (t.rows.map (fun r => getCell r ccol))).filter
    (fun k => decide (k ≠ Cell.missing))
  (sortDescBy (fun kv => kv.2)
    (keys.map (fun k => (k, ((prs.filter (fun pr => decide (getCell pr.1 ccol = k))).map
      (fun pr => pr.2)).sum)))).take topN

/-- Result record of `summarize_transactions`; `hasDate=false` models the
message-only answer when no usable date column exists, `isEmpty=true` the
`No data for this month` answer. -/
structure MonthSummary where
  hasDate : Bool
  revenue : ℚ
  top_clients : List (Cell × ℚ)
  isEmpty : Bool
deriving DecidableEq, Repr

/-- The `summarize_transactions` tool. -/
def summarize_core (sch : Schema) (t : Table) (y m : Nat) (ir : Bool) (topN : Nat) :
    MonthSummary :=
  match sch.date with
  | none => ⟨false, 0, [], true⟩
  | some dcol =>
      if dcol ∈ t.cols then
        let tf := summarizeRows sch dcol y m ir t
        if tf.rows.isEmpty then ⟨true, 0, [], true⟩
        else
          let totals := resolveTotalsSum sch tf
          let top :=
            match sch.customer with
            | some ccol => if ccol ∈ tf.cols then topClients ccol tf totals topN else []
            | none => []
          ⟨true, totals.sum, top, false⟩
      else ⟨false, 0, [], true⟩

/-- The `invoice_lines` tool, up to the presentation-level column selection
and date formatting (no claim depends on those): without an invoice-id role
it dumps the first 50 raw rows; otherwise it filters by stringified id and
enriches with the computed total when needed. -/
def invoice_lines_core (sch : Schema) (t : Table) (invId : String) : List Row :=
  match groupColOf sch t with
  | none => t.rows.take 50
  | some key =>
      let sub := t.rows.filter (fun r => decide (cellStr (getCell r key) = invId))
      if sub.isEmpty then []
      else if roleIn sch.line_total t.cols then sub
      else
        match sch.quantity, sch.unit_price with
        | some q, some p =>
            if q ∈ t.cols ∧ p ∈ t.cols then
              sub.map (fun r => r ++ [("__computed_total__", mulCells (getCell r q) (getCell r p))])
            else sub
        | _, _ => sub

/-! ## Loader (`_load_any`, `_ensure_loaded`) and process state -/

/-- Accumulator pass of the sheet-selection loop in `_load_any`: a sheet
that fails to parse (`none`) is skipped; a parsed sheet replaces the best
only on a strictly greater score (so ties keep the first-seen sheet). -/
def pickBestAux : Option (Table × String) → List (String × Option Table) → Option (Table × String)
  | best, [] => best
  | best, (_, none) :: rest => pickBestAux best rest
  | best, (n, some t) :: rest =>
      match best with
      | none => pickBestAux (some (t, n)) rest
      | some (bt, bn) =>
          if score_schema bt.cols < score_schema t.cols then pickBestAux (some (t, n)) rest
          else pickBestAux (some (bt, bn)) rest

/-- `_load_any` on a workbook: each entry is a sheet name paired with its
(deterministic) parse result, already header-normalized.  When every sheet
fails, the fallback re-reads the first sheet — the same parse, so the same
failure propagates (`Except.error`). -/
def load_any_excel (sheets : List (String × Option Table)) : Except Unit (Table × String) :=
  match pickBestAux none sheets with
  | some (t, n) => .ok (t, n)
  | none =>
      match sheets with
      | [] => .error ()
      | (n, some t) :: _ => .ok (t, n)
      | (_, none) :: _ => .error ()

/-- What the file at the active path currently parses as. -/
inductive SourceKind where
  | excel (sheets : List (String × Option Table))
  | csv (t : Option Table)
  | other
deriving DecidableEq

/-- `_load_any`: dispatch on the extension; a CSV leaves the cached sheet
name untouched; any other extension raises. -/
def load_any : SourceKind → Option String → Except Unit (Table × Option String)
  | .excel sheets, _ =>
      match load_any_excel sheets with
      | .ok (t, n) => .ok (t, some n)
      | .error e => .error e
  | .csv (some t), oldSheet => .ok (t, oldSheet)
  | .csv none, _ => .error ()
  | .other, _ => .error ()

/-- `_ensure_loaded` step: coerce the inferred date column to timestamps
(`to_datetime(..., errors="coerce")`). -/
def coerceDates (sch : Schema) (t : Table) : Table :=
  match sch.date with
  | some dcol =>
      if dcol ∈ t.cols then
        { t with rows := t.rows.map (fun r => r.map
            (fun kv => if kv.1 = dcol then (kv.1, coerceTs kv.2) else kv)) }
      else t
  | none => t

/-- `_ensure_loaded` step: when no `line_total` role is mapped but both
`quantity` and `unit_price` are, append `__computed_total__` as the
coerced product and redirect the role to it. -/
def ensureComputedTotal (sch : Schema) (t : Table) : Schema × Table :=
  match sch.line_total with
  | some _ => (sch, t)
  | none =>
      match sch.quantity, sch.unit_price with
      | some q, some p =>
          ({ sch with line_total := some "__computed_total__" },
           { cols := t.cols ++ ["__computed_total__"]
             rows := t.rows.map (fun r =>
               r ++ [("__computed_total__", mulCells (getCell r q) (getCell r p))]) })
      | _, _ => (sch, t)

/-- The process-wide `DataState` singleton (the `base_dir` confinement field
is outside every claim and not modelled). -/
structure DataState where
  path : Option String
  df : Option Table
  last_mtime : Option ℚ
  schema : Schema
  sheet_name : Option String
deriving DecidableEq

/-- The file system's answer for the active path at call time. -/
structure ExtFile where
  exists_ : Bool
  mtime : ℚ
  kind : SourceKind
deriving DecidableEq

inductive QErr where
  | noDataSource
  | fileNotFound
  | loadFailed
deriving DecidableEq, Repr

/-- `_ensure_loaded`: no source raises; a vanished file raises; an equal
modification time with a cached frame short-circuits; otherwise reload,
re-infer, coerce dates, materialize the computed total, refresh the cache. -/
def ensure_loaded (ext : ExtFile) (st : DataState) : Except QErr DataState :=
  match st.path with
  | none => .error .noDataSource
  | some _ =>
      if ext.exists_ = false then .error .fileNotFound
      else if st.df.isSome ∧ st.last_mtime = some ext.mtime then .ok st
      else
        match load_any ext.kind st.sheet_name with
        | .error _ => .error .loadFailed
        | .ok (t0, sh) =>
            let sch0 := infer_schema t0.cols
            let t1 := coerceDates sch0 t0
            let st2 := ensureComputedTotal sch0 t1
            .ok { st with df := some st2.2, last_mtime := some ext.mtime,
                          schema := st2.1, sheet_name := sh }

/-- `list_months` as a state-threading operation. -/
def list_months_op (ext : ExtFile) (st : DataState) (limit : Nat) :
    Except QErr (DataState × List (Nat × Nat)) :=
  match ensure_loaded ext st with
  | .error e => .error e
  | .ok st2 => .ok (st2, list_months_core st2.schema (st2.df.getD emptyTable) limit)

/-- `get_invoices` as a state-threading operation (aggregation happens on a
copy of the cached frame). -/
def get_invoices_op (ext : ExtFile) (st : DataState) (dr : Option DateRange)
    (cust : Option String) (ir : Bool) (mr : Nat) :
    Except QErr (DataState × List InvoiceAgg) :=
  match ensure_loaded ext st with
  | .error e => .error e
  | .ok st2 => .ok (st2, get_invoices_core st2.schema (st2.df.getD emptyTable) dr cust ir mr)

/-- `invoice_lines` as a state-threading operation. -/
def invoice_lines_op (ext : ExtFile) (st : DataState) (invId : String) :
    Except QErr (DataState × List Row) :=
  match ensure_loaded ext st with
  | .error e => .error e
  | .ok st2 => .ok (st2, invoice_lines_core st2.schema (st2.df.getD emptyTable) invId)

/-- `summarize_transactions` as a state-threading operation. -/
def summarize_op (ext : ExtFile) (st : DataState) (y m : Nat) (ir : Bool) (topN : Nat) :
    Except QErr (DataState × MonthSummary) :=
  match ensure_loaded ext st with
  | .error e => .error e
  | .ok st2 => .ok (st2, summarize_core st2.schema (st2.df.getD emptyTable) y m ir topN)

/-! ## Manual schema override (`override_schema`) -/

inductive OvErr where
  | unknownKey (k : String)
  | columnNotFound (c : ColName)
deriving DecidableEq, Repr

/-- The keys of `Schema.__dict__`. -/
def schemaKeys : List String :=
  ["invoice_id", "date", "quantity", "unit_price", "line_total",
   "customer", "country", "description"]

/-- `setattr(sch, k, v)` for a known key. -/
def setField (sch : Schema) (k : String) (v : Option ColName) : Schema :=
  if k = "invoice_id" then { sch with invoice_id := v }
  else if k = "date" then { sch with date := v }
  else if k = "quantity" then { sch with quantity := v }
  else if k = "unit_price" then { sch with unit_price := v }
  else if k = "line_total" then { sch with line_total := v }
  else if k = "customer" then { sch with customer := v }
  else if k = "country" then { sch with country := v }
  else if k = "description" then { sch with description := v }
  else sch

/-- `override_schema`: iterate the mapping in order, validating each entry
and applying it to the cached schema immediately; the first bad entry
raises, leaving every earlier assignment in place (the returned schema is
the cached one at raise time). -/
def override_schema (valid : List ColName) : Schema → List (String × Option ColName) →
    Schema × Option OvErr
  | sch, [] => (sch, none)
  | sch, (k, v) :: rest =>
      if k ∈ schemaKeys then
        match v with
        | none => override_schema valid (setField sch k none) rest
        | some c =>
            if c ∈ valid then override_schema valid (setField sch k (some c)) rest
            else (sch, some (.columnNotFound c))
      else (sch, some (.unknownKey k))

/-- Whether an override entry passes both validations. -/
def entryOk (valid : List ColName) (e : String × Option ColName) : Bool :=
  decide (e.1 ∈ schemaKeys) &&
    (match e.2 with
     | none => true
     | some c => decide (c ∈ valid))

/-! ## Column normalizer (`_norm`)

`_norm` does, in order: `strip()` (trim surrounding whitespace), `lower()`,
`re.sub(r"[\s\-_]+", " ", s)` (collapse every run of whitespace / hyphen /
underscore to one space), then remove every literal `.` and `#`.
It is embedded over `List Char`. -/

/-- The whitespace class of `str.strip()` and of regex `\s` (ASCII part). -/
def isWs (c : Char) : Bool :=
  c == ' ' || c == '\t' || c == '\n' || c == '\r' || c == '\x0b' || c == '\x0c'

/-- The character class `[\s\-_]` collapsed by `re.sub`. -/
def isSep (c : Char) : Bool := isWs c || c == '-' || c == '_'

/-- ASCII lower-case table (the model of `str.lower()`). -/
def lowerTable : List (Char × Char) :=
  [('A', 'a'), ('B', 'b'), ('C', 'c'), ('D', 'd'), ('E', 'e'), ('F', 'f'),
   ('G', 'g'), ('H', 'h'), ('I', 'i'), ('J', 'j'), ('K', 'k'), ('L', 'l'),
   ('M', 'm'), ('N', 'n'), ('O', 'o'), ('P', 'p'), ('Q', 'q'), ('R', 'r'),
   ('S', 's'), ('T', 't'), ('U', 'u'), ('V', 'v'), ('W', 'w'), ('X', 'x'),
   ('Y', 'y'), ('Z', 'z')]

def lowerLookup (c : Char) : List (Char × Char) → Char
  | [] => c
  | (k, v) :: r => if c = k then v else lowerLookup c r

def lowerChar (c : Char) : Char := lowerLookup c lowerTable

/-- `str.strip()`: drop leading and trailing whitespace. -/
def stripWs (l : List Char) : List Char :=
  ((l.dropWhile isWs).reverse.dropWhile isWs).reverse

/-- One pass of `re.sub(r"[\s\-_]+", " ", s)`: the flag records whether the
previous character belonged to the current separator run. -/
def collapseAux : Bool → List Char → List Char
  | _, [] => []
  | inSep, c :: rest =>
      if isSep c then
        (if inSep then collapseAux true rest else ' ' :: collapseAux true rest)
      else c :: collapseAux false rest

def collapseSeps (l : List Char) : List Char := collapseAux false l

/-- `replace(".", "").replace("#", "")`. -/
def stripDots (l : List Char) : List Char :=
  l.filter (fun c => !(c == '.' || c == '#'))

/-- `_norm` over a character list. -/
def norm (l : List Char) : List Char :=
  stripDots (collapseSeps (stripWs (l.map lowerChar)))

/-- `_norm` over strings. -/
def normStr (s : String) : String := ⟨norm s.data⟩

/-- No two adjacent separator characters. -/
def noDoubleSep : List Char → Bool
  | [] => true
  | [_] => true
  | a :: b :: r => (!(isSep a && isSep b)) && noDoubleSep (b :: r)

/-- The first character, if any, is not a separator. -/
def headOkSep : List Char → Bool
  | [] => true
  | c :: _ => !isSep c

/-- The last character, if any, is not a separator. -/
def lastOkSep (l : List Char) : Bool :=
  match l.getLast? with
  | none => true
  | some c => !isSep c

/-- Characters `_norm` can output: fixed under lower-casing, only `' '` as
separator, and no `.` or `#`. -/
def goodChar (c : Char) : Prop :=
  lowerChar c = c ∧ (isSep c = true → c = ' ') ∧ c ≠ '.' ∧ c ≠ '#'

/-! ## Concrete example data -/

def jan5 : Timestamp := ⟨2024, 1, 5, 0, 0, 0⟩
def jan6 : Timestamp := ⟨2024, 1, 6, 0, 0, 0⟩
def jan10 : Timestamp := ⟨2024, 1, 10, 0, 0, 0⟩

def exCols : List ColName := ["invoice", "date", "quantity", "price"]

/-- The spec's end-to-end example table. -/
def exTable : Table :=
  { cols := exCols
    rows :=
      [[("invoice", .str "A1"), ("date", .ts jan5), ("quantity", .num 2), ("price", .num 10)],
       [("invoice", .str "A1"), ("date", .ts jan6), ("quantity", .num (-1)), ("price", .num 10)],
       [("invoice", .str "B2"), ("date", .ts jan10), ("quantity", .num 1), ("price", .num 5)]] }

def exSchema : Schema := infer_schema exCols

/-- A one-row table dated in the afternoon of the last day of 2024-01. -/
def lateJanTable : Table :=
  { cols := exCols
    rows := [[("invoice", .str "A1"), ("date", .ts ⟨2024, 1, 31, 12, 0, 0⟩),
              ("quantity", .num 1), ("price", .num 10)]] }

/-- A table carrying an explicit `amount` column next to quantity/price. -/
def amountTable : Table :=
  { cols := ["invoice", "date", "quantity", "price", "amount"]
    rows :=
      [[("invoice", .str "A1"), ("date", .ts jan5), ("quantity", .num 2),
        ("price", .num 10), ("amount", .num 99)]] }

def amountSchema : Schema := infer_schema amountTable.cols

/-- A low-scoring and a high-scoring parsed sheet. -/
def sheetLow : Table := { cols := ["foo"], rows := [] }

def sheetHigh : Table := { cols := ["invoice", "date"], rows := [] }

def exSheets : List (String × Option Table) :=
  [("Notes", some sheetLow), ("Data", some sheetHigh)]

/-- Quantity cell that does not parse as a number, next to a numeric price. -/
def badQtyTable : Table :=
  { cols := ["qty", "price"]
    rows := [[("qty", .str "oops"), ("price", .num 5)]] }

def badQtySchema : Schema :=
  { quantity := some "qty", unit_price := some "price" }

/-- A cached state whose source file has not changed. -/
def exState : DataState :=
  { path := some "data.csv", df := some exTable, last_mtime := some 17,
    schema := exSchema, sheet_name := none }

def exFile : ExtFile := { exists_ := true, mtime := 17, kind := .csv (some exTable) }

/-! ## Theorems -/

/-- Claim C1: the claim says `resolveRange("2024-01")` reaches through the
last instant `2024-01-31T23:59:59` of the month.  The code is wrong: pandas
`MonthEnd(1)` added to the month start lands on the last day at the *same
time of day* (midnight), so the inclusive filter excludes everything later
on the last day of the month — contradicting the helper's own docstring
("(start_ts, end_ts) covering that month") and the tool docstrings.  This
theorem evaluates the embedded code at the failing input: the bound is
`2024-01-31T00:00:00`, a row dated `2024-01-31T12:00:00` lies inside the
claimed bounds but `get_invoices` and `summarize_transactions` drop it.  -/
theorem C1_month_bounds_end_midnight :
    month_bounds 2024 1 = (⟨2024, 1, 1, 0, 0, 0⟩, ⟨2024, 1, 31, 0, 0, 0⟩) ∧
    (⟨2024, 1, 31, 0, 0, 0⟩ : Timestamp) ≠ ⟨2024, 1, 31, 23, 59, 59⟩ ∧
    date_range_bounds (.span (2024, 1) (2024, 3)) =
      (⟨2024, 1, 1, 0, 0, 0⟩, ⟨2024, 3, 31, 0, 0, 0⟩) ∧
    tsLe (month_bounds 2024 1).1 ⟨2024, 1, 31, 12, 0, 0⟩ = true ∧
    tsLe ⟨2024, 1, 31, 12, 0, 0⟩ ⟨2024, 1, 31, 23, 59, 59⟩ = true ∧
    tsLe ⟨2024, 1, 31, 12, 0, 0⟩ (month_bounds 2024 1).2 = false ∧
    get_invoices_core exSchema lateJanTable (some (.single (2024, 1))) none true 200 = [] ∧
    summarize_core exSchema lateJanTable 2024 1 true 5 = ⟨true, 0, [], true⟩ := by
  decide

theorem choose_best_mem_congr (cols cols' keys : List ColName)
    (h : ∀ k, k ∈ cols ↔ k ∈ cols') : choose_best cols keys = choose_best cols' keys := by
  induction keys with
  | nil => rfl
  | cons k ks ih =>
      by_cases hk : k ∈ cols
      · simp [choose_best, hk, (h k).mp hk]
      · have hk' : k ∉ cols' := fun hc => hk ((h k).mpr hc)
        simp [choose_best, hk, hk', ih]

theorem choose_best_none (cols keys : List ColName)
    (h : ∀ k ∈ keys, k ∉ cols) : choose_best cols keys = none := by
  induction keys with
  | nil => rfl
  | cons k ks ih =>
      have hk : k ∉ cols := h k (by simp)
      simpa [choose_best, hk] using ih (fun j hj => h j (by simp [hj]))

theorem choose_best_first (cols keys : List ColName) (k : ColName)
    (h : choose_best cols keys = some k) :
    ∃ pre post, keys = pre ++ k :: post ∧ k ∈ cols ∧ ∀ j ∈ pre, j ∉ cols := by
  induction keys with
  | nil => simp [choose_best] at h
  | cons k0 ks ih =>
      by_cases hk : k0 ∈ cols
      · simp only [choose_best, if_pos hk, Option.some.injEq] at h
        exact ⟨[], ks, by simp [h], h ▸ hk, by simp⟩
      · simp only [choose_best, if_neg hk] at h
        obtain ⟨pre, post, hkeys, hmem, hpre⟩ := ih h
        exact ⟨k0 :: pre, post, by simp [hkeys], hmem, by
          intro j hj
          rcases List.mem_cons.mp hj with hj | hj
          · exact hj ▸ hk
          · exact hpre j hj⟩

/-- Claim C4: schema inference picks, for each role, the first synonym in
the fixed table order that is present among the columns: the choice depends
only on membership (not on physical column order), a role with no present
synonym stays absent, a successful choice is the earliest present synonym,
`_infer_schema` is exactly this choice role by role, and on columns
`{"order id", "invoice"}` the invoice-id role resolves to `"invoice"`,
which sits earlier in the synonym table than `"order id"`. -/
theorem C4_synonym_order_inference : ∀ cols cols' keys : List ColName,
    ((∀ k, k ∈ cols ↔ k ∈ cols') → choose_best cols keys = choose_best cols' keys) ∧
    ((∀ k ∈ keys, k ∉ cols) → choose_best cols keys = none) ∧
    (∀ k, choose_best cols keys = some k →
      ∃ pre post, keys = pre ++ k :: post ∧ k ∈ cols ∧ ∀ j ∈ pre, j ∉ cols) ∧
    infer_schema cols =
      { invoice_id := choose_best cols synInvoiceId
        date := choose_best cols synDate
        quantity := choose_best cols synQuantity
        unit_price := choose_best cols synUnitPrice
        line_total := choose_best cols synLineTotal
        customer := choose_best cols synCustomer
        country := choose_best cols synCountry
        description := choose_best cols synDescription } ∧
    (choose_best ["order id", "invoice"] synInvoiceId = some "invoice" ∧
     choose_best ["invoice", "order id"] synInvoiceId = some "invoice" ∧
     List.indexOf "invoice" synInvoiceId < List.indexOf "order id" synInvoiceId) := by
  intro cols cols' keys
  exact ⟨choose_best_mem_congr cols cols' keys, choose_best_none cols keys,
    fun k => choose_best_first cols keys k, rfl, by decide⟩

theorem mem_pair_swap (k : ColName) :
    k ∈ ["order id", "invoice"] ↔ k ∈ ["invoice", "order id"] := by
  simp only [List.mem_cons, List.not_mem_nil, or_false]
  tauto

theorem C4_synonym_order_inference_witness :
    choose_best ["order id", "invoice"] synInvoiceId =
      choose_best ["invoice", "order id"] synInvoiceId ∧
    choose_best ["zzz"] synInvoiceId = none := by
  constructor
  · exact (C4_synonym_order_inference ["order id", "invoice"] ["invoice", "order id"]
      synInvoiceId).1 mem_pair_swap
  · exact (C4_synonym_order_inference ["zzz"] [] synInvoiceId).2.1 (by decide)

/-- Claim C2: the totals pick of both aggregation tools.  Whenever the
`line_total` role is mapped to a present column, the per-row total is read
from that column (never recomputed from quantity × unit price); otherwise,
with quantity and unit price both mapped to present columns, the total is
their element-wise numeric product; otherwise it is the constant `1.0` per
row, so the tools still return counts.  -/
theorem C2_total_resolution_precedence : ∀ (sch : Schema) (t : Table),
    (∀ lt, sch.line_total = some lt → lt ∈ t.cols →
      resolveTotalsGI sch t = t.rows.map (fun r => toNumeric (getCell r lt)) ∧
      resolveTotalsSum sch t = t.rows.map (fun r => numOr0 (getCell r lt))) ∧
    (∀ q p, roleIn sch.line_total t.cols = false →
      sch.quantity = some q → q ∈ t.cols → sch.unit_price = some p → p ∈ t.cols →
      resolveTotalsGI sch t =
        t.rows.map (fun r => optMul (toNumeric (getCell r q)) (toNumeric (getCell r p))) ∧
      resolveTotalsSum sch t =
        t.rows.map (fun r => numOr0 (getCell r q) * numOr0 (getCell r p))) ∧
    (roleIn sch.line_total t.cols = false →
      (roleIn sch.quantity t.cols = false ∨ roleIn sch.unit_price t.cols = false) →
      resolveTotalsGI sch t = t.rows.map (fun _ => some 1) ∧
      resolveTotalsSum sch t = t.rows.map (fun _ => (1 : ℚ))) := by
  intro sch t
  refine ⟨?_, ?_, ?_⟩
  · intro lt hlt hmem
    constructor
    · simp [resolveTotalsGI, hlt, hmem]
    · simp [resolveTotalsSum, hlt, hmem]
  · intro q p hltrole hq hqm hp hpm
    have hgi : resolveTotalsGI sch t = productGI sch t := by
      cases hlt : sch.line_total with
      | none => simp [resolveTotalsGI, hlt]
      | some lt =>
          have : lt ∉ t.cols := by
            intro hc
            simp [roleIn, hlt, hc] at hltrole
          simp [resolveTotalsGI, hlt, this]
    have hsum : resolveTotalsSum sch t = productSum sch t := by
      cases hlt : sch.line_total with
      | none => simp [resolveTotalsSum, hlt]
      | some lt =>
          have : lt ∉ t.cols := by
            intro hc
            simp [roleIn, hlt, hc] at hltrole
          simp [resolveTotalsSum, hlt, this]
    rw [hgi, hsum]
    constructor
    · simp [productGI, hq, hp, hqm, hpm]
    · simp [productSum, hq, hp, hqm, hpm]
  · intro hltrole hqp
    have hgi : resolveTotalsGI sch t = productGI sch t := by
      cases hlt : sch.line_total with
      | none => simp [resolveTotalsGI, hlt]
      | some lt =>
          have : lt ∉ t.cols := by
            intro hc
            simp [roleIn, hlt, hc] at hltrole
          simp [resolveTotalsGI, hlt, this]
    have hsum : resolveTotalsSum sch t = productSum sch t := by
      cases hlt : sch.line_total with
      | none => simp [resolveTotalsSum, hlt]
      | some lt =>
          have : lt ∉ t.cols := by
            intro hc
            simp [roleIn, hlt, hc] at hltrole
          simp [resolveTotalsSum, hlt, this]
    rw [hgi, hsum]
    cases hq : sch.quantity with
    | none => exact ⟨by simp [productGI, hq], by simp [productSum, hq]⟩
    | some q =>
        cases hp : sch.unit_price with
        | none => exact ⟨by simp [productGI, hq, hp], by simp [productSum, hq, hp]⟩
        | some p =>
            have hnot : ¬(q ∈ t.cols ∧ p ∈ t.cols) := by
              rcases hqp with h | h
              · intro hc
                simp [roleIn, hq, hc.1] at h
              · intro hc
                simp [roleIn, hp, hc.2] at h
            exact ⟨by simp [productGI, hq, hp, hnot], by simp [productSum, hq, hp, hnot]⟩

theorem C2_total_resolution_precedence_witness :
    resolveTotalsGI amountSchema amountTable =
      amountTable.rows.map (fun r => toNumeric (getCell r "amount")) ∧
    resolveTotalsSum amountSchema amountTable =
      amountTable.rows.map (fun r => numOr0 (getCell r "amount")) :=
  (C2_total_resolution_precedence amountSchema amountTable).1 "amount" (by decide) (by decide)

/-- Claim C3: with `includeReturns=False` and a mapped, present quantity
role, every row surviving the returns filter has numeric quantity
(missing/unparseable read as 0) `≥ 0`, every negative-quantity row is
dropped, `get_invoices` with returns excluded equals `get_invoices` over
the pre-filtered table (so no dropped row contributes to any
`total_amount`), and the rows feeding the `summarize_transactions` revenue
are exactly the returns-filtered month window. -/
theorem C3_returns_exclusion : ∀ (sch : Schema) (q : ColName), sch.quantity = some q →
    (∀ t : Table, q ∈ t.cols →
      ∀ r ∈ (filterReturns false sch t).rows, 0 ≤ numOr0 (getCell r q)) ∧
    (∀ t : Table, q ∈ t.cols →
      ∀ r ∈ t.rows, numOr0 (getCell r q) < 0 → r ∉ (filterReturns false sch t).rows) ∧
    (∀ t dr cust mr, get_invoices_core sch t dr cust false mr =
      get_invoices_core sch (filterReturns false sch t) dr cust true mr) ∧
    (∀ t dcol y m, summarizeRows sch dcol y m false t =
      filterReturns false sch (filterMonth dcol y m t)) ∧
    (∀ (t : Table) (dcol : ColName) (y m : Nat), q ∈ t.cols →
      ∀ r ∈ (summarizeRows sch dcol y m false t).rows, 0 ≤ numOr0 (getCell r q)) := by
  intro sch q hq
  have key : ∀ t : Table, q ∈ t.cols →
      ∀ r ∈ (filterReturns false sch t).rows, 0 ≤ numOr0 (getCell r q) := by
    intro t hmem r hr
    simp only [filterReturns, hq, if_pos hmem] at hr
    exact of_decide_eq_true (List.mem_filter.mp hr).2
  refine ⟨key, ?_, ?_, ?_, ?_⟩
  · intro t hmem r _ hneg hr
    exact absurd (key t hmem r hr) (not_le.mpr hneg)
  · intro t dr cust mr
    rfl
  · intro t dcol y m
    rfl
  · intro t dcol y m hmem r hr
    exact key (filterMonth dcol y m t) hmem r hr

theorem C3_returns_exclusion_witness :
    0 ≤ numOr0 (getCell [("invoice", Cell.str "A1"), ("date", Cell.ts jan5),
      ("quantity", Cell.num 2), ("price", Cell.num 10)] "quantity") :=
  (C3_returns_exclusion exSchema "quantity" (by decide)).1 exTable (by decide)
    [("invoice", Cell.str "A1"), ("date", Cell.ts jan5),
      ("quantity", Cell.num 2), ("price", Cell.num 10)] (by decide)

/-- Claim C9: `override_schema` is not atomic.  When the mapping consists
of valid entries followed by an entry that fails validation (unknown role
key or column not present), the returned error is accompanied by a cached
schema to which every earlier entry has already been applied — the schema
is not left unchanged on failure. -/
theorem C9_override_schema_not_atomic : ∀ (valid : List ColName) (sch : Schema)
    (pre rest : List (String × Option ColName)) (k : String) (v : Option ColName),
    (∀ e ∈ pre, entryOk valid e = true) → entryOk valid (k, v) = false →
    (override_schema valid sch (pre ++ (k, v) :: rest)).1 =
      pre.foldl (fun s e => setField s e.1 e.2) sch ∧
    (override_schema valid sch (pre ++ (k, v) :: rest)).2.isSome = true := by
  intro valid sch pre rest k v hpre hbad
  induction pre generalizing sch with
  | nil =>
      simp only [List.nil_append, List.foldl_nil]
      by_cases hk : k ∈ schemaKeys
      · cases v with
        | none => simp [entryOk, hk] at hbad
        | some c =>
            have hc : c ∉ valid := by
              intro hmem
              simp [entryOk, hk, hmem] at hbad
            simp [override_schema, hk, hc]
      · simp [override_schema, hk]
  | cons e pre' ih =>
      have he : entryOk valid e = true := hpre e (by simp)
      have hk : e.1 ∈ schemaKeys := by
        have := he
        simp only [entryOk, Bool.and_eq_true, decide_eq_true_eq] at this
        exact this.1
      have htail : ∀ e' ∈ pre', entryOk valid e' = true :=
        fun e' he' => hpre e' (by simp [he'])
      obtain ⟨k0, v0⟩ := e
      cases v0 with
      | none =>
          simpa [override_schema, hk] using ih (setField sch k0 none) htail
      | some c =>
          have hc : c ∈ valid := by
            have := he
            simp only [entryOk, Bool.and_eq_true, decide_eq_true_eq] at this
            exact this.2
          simpa [override_schema, hk, hc] using ih (setField sch k0 (some c)) htail

theorem C9_override_schema_not_atomic_witness :
    (override_schema ["a", "b"] {}
      [("quantity", some "a"), ("line_total", some "zzz"), ("date", some "b")]).1 =
      [(("quantity" : String), some ("a" : ColName))].foldl
        (fun s e => setField s e.1 e.2) {} ∧
    (override_schema ["a", "b"] {}
      [("quantity", some "a"), ("line_total", some "zzz"), ("date", some "b")]).2.isSome
      = true :=
  C9_override_schema_not_atomic ["a", "b"] {} [("quantity", some "a")]
    [("date", some "b")] "line_total" (some "zzz") (by decide) (by decide)

/-- Claim C10: when the source file still exists and its modification time
equals the cached one (and a frame is cached), `_ensure_loaded`
short-circuits, so every query operation returns with the process-wide
`DataState` — path, cached table, schema mapping, and sheet name —
identical to what it was, and its answer is computed from the cached
table. -/
theorem C10_query_ops_preserve_state : ∀ (ext : ExtFile) (st : DataState) (p : String)
    (d : Table) (limit : Nat) (dr : Option DateRange) (cust : Option String) (ir : Bool)
    (mr : Nat) (invId : String) (y m topN : Nat),
    st.path = some p → ext.exists_ = true → st.df = some d →
    st.last_mtime = some ext.mtime →
    ensure_loaded ext st = .ok st ∧
    list_months_op ext st limit = .ok (st, list_months_core st.schema d limit) ∧
    get_invoices_op ext st dr cust ir mr =
      .ok (st, get_invoices_core st.schema d dr cust ir mr) ∧
    invoice_lines_op ext st invId = .ok (st, invoice_lines_core st.schema d invId) ∧
    summarize_op ext st y m ir topN = .ok (st, summarize_core st.schema d y m ir topN) := by
  intro ext st p d limit dr cust ir mr invId y m topN hp hex hd hm
  have hens : ensure_loaded ext st = .ok st := by
    simp [ensure_loaded, hp, hex, hd, hm]
  have hgetd : st.df.getD emptyTable = d := by
    simp [hd]
  refine ⟨hens, ?_, ?_, ?_, ?_⟩
  · simp [list_months_op, hens, hgetd]
  · simp [get_invoices_op, hens, hgetd]
  · simp [invoice_lines_op, hens, hgetd]
  · simp [summarize_op, hens, hgetd]

theorem C10_query_ops_preserve_state_witness :
    ensure_loaded exFile exState = .ok exState ∧
    get_invoices_op exFile exState none none true 200 =
      .ok (exState, get_invoices_core exState.schema exTable none none true 200) :=
  ⟨(C10_query_ops_preserve_state exFile exState "data.csv" exTable 24 none none true 200
      "A1" 2024 1 5 rfl rfl rfl rfl).1,
   (C10_query_ops_preserve_state exFile exState "data.csv" exTable 24 none none true 200
      "A1" 2024 1 5 rfl rfl rfl rfl).2.2.1⟩

/-- Claim C6 counterexample: the claim says non-numeric inputs are treated
as **zero** for the synthetic product.  On a row whose quantity is the
non-numeric string `oops`, the appended `__computed_total__` cell is the
missing value (pandas NaN, from `to_numeric(..., errors="coerce")`), which
is not the number 0 — downstream sums merely treat it as 0. -/
theorem C6_nonnumeric_product_counterexample :
    getCell ((ensureComputedTotal badQtySchema badQtyTable).2.rows.headD [])
      "__computed_total__" = Cell.missing ∧
    Cell.missing ≠ Cell.num 0 ∧
    toNumeric (Cell.str "oops") = none ∧
    (ensureComputedTotal badQtySchema badQtyTable).1.line_total =
      some "__computed_total__" := by
  decide

/-- Claim C6 (amended): when no `line_total` role is mapped but quantity
and unit price are both mapped, the loader appends a synthetic
`__computed_total__` column holding the element-wise coerced product —
the product value when both inputs are numeric and the **missing** value
(not zero, and not a failure) when either input is non-numeric — and
redirects the `line_total` role to it; in every other case table and
schema are left untouched. -/
theorem C6_synthetic_total_amended : ∀ (sch : Schema) (t : Table) (q p : ColName),
    (sch.line_total = none → sch.quantity = some q → sch.unit_price = some p →
      (ensureComputedTotal sch t).1 = { sch with line_total := some "__computed_total__" } ∧
      (ensureComputedTotal sch t).2.cols = t.cols ++ ["__computed_total__"] ∧
      (ensureComputedTotal sch t).2.rows = t.rows.map
        (fun r => r ++ [("__computed_total__", mulCells (getCell r q) (getCell r p))])) ∧
    (∀ a b : Cell, ∀ x y : ℚ, toNumeric a = some x → toNumeric b = some y →
      mulCells a b = Cell.num (x * y)) ∧
    (∀ a b : Cell, toNumeric a = none ∨ toNumeric b = none → mulCells a b = Cell.missing) ∧
    (∀ lt, sch.line_total = some lt → ensureComputedTotal sch t = (sch, t)) ∧
    (sch.line_total = none → sch.quantity = none ∨ sch.unit_price = none →
      ensureComputedTotal sch t = (sch, t)) := by
  intro sch t q p
  refine ⟨?_, ?_, ?_, ?_, ?_⟩
  · intro hlt hq hp
    refine ⟨?_, ?_, ?_⟩ <;> simp [ensureComputedTotal, hlt, hq, hp]
  · intro a b x y hx hy
    simp [mulCells, hx, hy]
  · intro a b h
    rcases h with h | h
    · simp [mulCells, h]
    · cases ha : toNumeric a <;> simp [mulCells, ha, h]
  · intro lt hlt
    simp [ensureComputedTotal, hlt]
  · intro hlt h
    rcases h with h | h
    · simp [ensureComputedTotal, hlt, h]
    · cases hq : sch.quantity <;> simp [ensureComputedTotal, hlt, hq, h]

theorem C6_synthetic_total_amended_witness :
    (ensureComputedTotal badQtySchema badQtyTable).1 =
      { badQtySchema with line_total := some "__computed_total__" } ∧
    (ensureComputedTotal badQtySchema badQtyTable).2.cols =
      badQtyTable.cols ++ ["__computed_total__"] ∧
    (ensureComputedTotal badQtySchema badQtyTable).2.rows = badQtyTable.rows.map
      (fun r => r ++ [("__computed_total__", mulCells (getCell r "qty") (getCell r "price"))]) :=
  (C6_synthetic_total_amended badQtySchema badQtyTable "qty" "price").1 rfl rfl rfl

theorem pickBestAux_all_none : ∀ (rest : List (String × Option Table))
    (best : Option (Table × String)),
    (∀ s ∈ rest, s.2 = none) → pickBestAux best rest = best := by
  intro rest
  induction rest with
  | nil => intro best _; rfl
  | cons s rest' ih =>
      intro best h
      obtain ⟨n0, o0⟩ := s
      have h0 : o0 = none := h (n0, o0) (by simp)
      subst h0
      simpa [pickBestAux] using ih best (fun s hs => h s (by simp [hs]))

theorem pickBestAux_none_imp : ∀ (rest : List (String × Option Table))
    (best : Option (Table × String)),
    pickBestAux best rest = none → best = none ∧ ∀ s ∈ rest, s.2 = none := by
  intro rest
  induction rest with
  | nil =>
      intro best h
      exact ⟨h, by simp⟩
  | cons s rest' ih =>
      intro best h
      obtain ⟨n0, o0⟩ := s
      cases o0 with
      | none =>
          have := ih best (by simpa [pickBestAux] using h)
          refine ⟨this.1, ?_⟩
          intro s hs
          rcases List.mem_cons.mp hs with hs | hs
          · simp [hs]
          · exact this.2 s hs
      | some t0 =>
          exfalso
          cases best with
          | none =>
              have := (ih (some (t0, n0)) (by simpa [pickBestAux] using h)).1
              simp at this
          | some b =>
              obtain ⟨bt, bn⟩ := b
              by_cases hlt : score_schema bt.cols < score_schema t0.cols
              · have := (ih (some (t0, n0)) (by simpa [pickBestAux, hlt] using h)).1
                simp at this
              · have := (ih (some (bt, bn)) (by simpa [pickBestAux, hlt] using h)).1
                simp at this

theorem pair_mem_head {n0 : String} {t0 : Table} {n1 : String} {t1 : Table}
    (h : (n1, some t1) = (n0, some t0)) : t1 = t0 := by
  simp only [Prod.mk.injEq, Option.some.injEq] at h
  exact h.2

theorem pickBestAux_spec : ∀ (rest : List (String × Option Table))
    (best : Option (Table × String)) (r : Table × String),
    pickBestAux best rest = some r →
    (∃ pre post, rest = pre ++ (r.2, some r.1) :: post ∧
      (∀ n' t', (n', some t') ∈ pre → score_schema t'.cols < score_schema r.1.cols) ∧
      (∀ b, best = some b → score_schema b.1.cols < score_schema r.1.cols) ∧
      (∀ n' t', (n', some t') ∈ post → score_schema t'.cols ≤ score_schema r.1.cols)) ∨
    (best = some r ∧
      ∀ n' t', (n', some t') ∈ rest → score_schema t'.cols ≤ score_schema r.1.cols) := by
  intro rest
  induction rest with
  | nil =>
      intro best r h
      right
      exact ⟨h, by simp⟩
  | cons s rest' ih =>
      intro best r h
      obtain ⟨n0, o0⟩ := s
      cases o0 with
      | none =>
          have h' : pickBestAux best rest' = some r := by simpa [pickBestAux] using h
          rcases ih best r h' with ⟨pre, post, heq, hpre, hbest, hpost⟩ | ⟨hb, hall⟩
          · left
            refine ⟨(n0, none) :: pre, post, by simp [heq], ?_, hbest, hpost⟩
            intro n' t' hmem
            rcases List.mem_cons.mp hmem with hmem | hmem
            · simp at hmem
            · exact hpre n' t' hmem
          · right
            refine ⟨hb, ?_⟩
            intro n' t' hmem
            rcases List.mem_cons.mp hmem with hmem | hmem
            · simp at hmem
            · exact hall n' t' hmem
      | some t0 =>
          cases best with
          | none =>
              have h' : pickBestAux (some (t0, n0)) rest' = some r := by
                simpa [pickBestAux] using h
              rcases ih (some (t0, n0)) r h' with
                ⟨pre, post, heq, hpre, hbest, hpost⟩ | ⟨hb, hall⟩
              · left
                have ht0 : score_schema t0.cols < score_schema r.1.cols :=
                  hbest (t0, n0) rfl
                refine ⟨(n0, some t0) :: pre, post, by simp [heq], ?_, by simp, hpost⟩
                intro n' t' hmem
                rcases List.mem_cons.mp hmem with hmem | hmem
                · rw [pair_mem_head hmem]
                  exact ht0
                · exact hpre n' t' hmem
              · have hr : (t0, n0) = r := Option.some.inj hb
                subst hr
                left
                exact ⟨[], rest', by simp, by simp, by simp, hall⟩
          | some b =>
              obtain ⟨bt, bn⟩ := b
              by_cases hlt : score_schema bt.cols < score_schema t0.cols
              · have h' : pickBestAux (some (t0, n0)) rest' = some r := by
                  simpa [pickBestAux, hlt] using h
                rcases ih (some (t0, n0)) r h' with
                  ⟨pre, post, heq, hpre, hbest, hpost⟩ | ⟨hb, hall⟩
                · left
                  have ht0 : score_schema t0.cols < score_schema r.1.cols :=
                    hbest (t0, n0) rfl
                  refine ⟨(n0, some t0) :: pre, post, by simp [heq], ?_, ?_, hpost⟩
                  · intro n' t' hmem
                    rcases List.mem_cons.mp hmem with hmem | hmem
                    · rw [pair_mem_head hmem]
                      exact ht0
                    · exact hpre n' t' hmem
                  · intro b hb
                    have hbb : (bt, bn) = b := Option.some.inj hb
                    subst hbb
                    exact lt_trans hlt ht0
                · have hr : (t0, n0) = r := Option.some.inj hb
                  subst hr
                  left
                  refine ⟨[], rest', by simp, by simp, ?_, hall⟩
                  intro b hb
                  have hbb : (bt, bn) = b := Option.some.inj hb
                  subst hbb
                  exact hlt
              · have h' : pickBestAux (some (bt, bn)) rest' = some r := by
                  simpa [pickBestAux, hlt] using h
                rcases ih (some (bt, bn)) r h' with
                  ⟨pre, post, heq, hpre, hbest, hpost⟩ | ⟨hb, hall⟩
                · left
                  have hbt : score_schema bt.cols < score_schema r.1.cols :=
                    hbest (bt, bn) rfl
                  refine ⟨(n0, some t0) :: pre, post, by simp [heq], ?_, ?_, hpost⟩
                  · intro n' t' hmem
                    rcases List.mem_cons.mp hmem with hmem | hmem
                    · rw [pair_mem_head hmem]
                      exact lt_of_le_of_lt (not_lt.mp hlt) hbt
                    · exact hpre n' t' hmem
                  · intro b hb
                    have hbb : (bt, bn) = b := Option.some.inj hb
                    subst hbb
                    exact hbt
                · have hr : (bt, bn) = r := Option.some.inj hb
                  subst hr
                  right
                  refine ⟨rfl, ?_⟩
                  intro n' t' hmem
                  rcases List.mem_cons.mp hmem with hmem | hmem
                  · rw [pair_mem_head hmem]
                    exact not_lt.mp hlt
                  · exact hall n' t' hmem

/-- Claim C5 counterexample: the claim says a workbook with at least one
sheet never fails outright.  With a single sheet whose parse fails, the
fallback re-reads that same first sheet, the parse fails again, and the
loader raises. -/
theorem C5_all_sheets_fail_counterexample :
    load_any_excel [("Sheet1", none)] = .error () ∧
    ([("Sheet1", (none : Option Table))] : List (String × Option Table)) ≠ [] :=
  ⟨rfl, by decide⟩

/-- Claim C5 (amended): the loader attempts every sheet, swallows per-sheet
parse failures, and keeps the highest-scoring parsed sheet with ties broken
first-seen (every earlier parsed sheet scores strictly lower, every later
one scores no higher); whenever at least one sheet parses it succeeds, but
when every sheet fails to parse the fallback re-read of the first sheet
fails the same way, so the loader raises rather than returning a table. -/
theorem C5_sheet_selection_amended : ∀ (sheets : List (String × Option Table))
    (t : Table) (n : String),
    ((∀ s ∈ sheets, s.2 = none) → load_any_excel sheets = .error ()) ∧
    (load_any_excel sheets = .ok (t, n) →
      ∃ pre post, sheets = pre ++ (n, some t) :: post ∧
        (∀ n' t', (n', some t') ∈ pre → score_schema t'.cols < score_schema t.cols) ∧
        (∀ n' t', (n', some t') ∈ post → score_schema t'.cols ≤ score_schema t.cols)) ∧
    ((∃ s ∈ sheets, s.2 ≠ none) → ∃ t' n', load_any_excel sheets = .ok (t', n')) := by
  intro sheets t n
  refine ⟨?_, ?_, ?_⟩
  · intro hall
    have hpick : pickBestAux none sheets = none := pickBestAux_all_none sheets none hall
    cases sheets with
    | nil => rfl
    | cons s rest =>
        obtain ⟨n0, o0⟩ := s
        have h0 : o0 = none := hall (n0, o0) (by simp)
        subst h0
        simp [load_any_excel, hpick]
  · intro hok
    cases hpick : pickBestAux none sheets with
    | some r =>
        have hr : r = (t, n) := by
          simp only [load_any_excel, hpick] at hok
          injection hok
        subst hr
        rcases pickBestAux_spec sheets none (t, n) hpick with
          ⟨pre, post, heq, hpre, _, hpost⟩ | ⟨hb, _⟩
        · exact ⟨pre, post, heq, hpre, hpost⟩
        · simp at hb
    | none =>
        exfalso
        have hall := (pickBestAux_none_imp sheets none hpick).2
        cases sheets with
        | nil => simp [load_any_excel, hpick] at hok
        | cons s rest =>
            obtain ⟨n0, o0⟩ := s
            have h0 : o0 = none := hall (n0, o0) (by simp)
            subst h0
            simp [load_any_excel, hpick] at hok
  · intro hex
    cases hpick : pickBestAux none sheets with
    | some r => exact ⟨r.1, r.2, by simp [load_any_excel, hpick]⟩
    | none =>
        exfalso
        obtain ⟨s, hs, hne⟩ := hex
        exact hne ((pickBestAux_none_imp sheets none hpick).2 s hs)

theorem C5_sheet_selection_amended_witness :
    (∃ pre post, exSheets = pre ++ ("Data", some sheetHigh) :: post ∧
      (∀ n' t', (n', some t') ∈ pre → score_schema t'.cols < score_schema sheetHigh.cols) ∧
      (∀ n' t', (n', some t') ∈ post → score_schema t'.cols ≤ score_schema sheetHigh.cols)) ∧
    load_any_excel [("Empty", none), ("Junk", none)] = .error () :=
  ⟨(C5_sheet_selection_amended exSheets sheetHigh "Data").2.1 rfl,
   (C5_sheet_selection_amended [("Empty", none), ("Junk", none)] emptyTable "x").1 (by decide)⟩

theorem filterReturns_cols (ir : Bool) (sch : Schema) (t : Table) :
    (filterReturns ir sch t).cols = t.cols := by
  cases ir with
  | true => rfl
  | false =>
      cases hq : sch.quantity with
      | none => simp [filterReturns, hq]
      | some q =>
          by_cases hm : q ∈ t.cols <;> simp [filterReturns, hq, hm]

theorem filterDateRange_cols (dr : Option DateRange) (sch : Schema) (t : Table) :
    (filterDateRange dr sch t).cols = t.cols := by
  cases dr with
  | none => rfl
  | some r =>
      cases hd : sch.date with
      | none => simp [filterDateRange, hd]
      | some dcol =>
          by_cases hm : dcol ∈ t.cols <;> simp [filterDateRange, hd, hm]

theorem filterCustomer_cols (cust : Option String) (sch : Schema) (t : Table) :
    (filterCustomer cust sch t).cols = t.cols := by
  cases cust with
  | none => rfl
  | some c =>
      cases hc : sch.customer with
      | none => simp [filterCustomer, hc]
      | some ccol =>
          by_cases hm : ccol ∈ t.cols <;> simp [filterCustomer, hc, hm]

theorem mem_insertDescBy {α β : Type} [LinearOrder β] (key : α → β) (x : α)
    (l : List α) (y : α) : y ∈ insertDescBy key x l ↔ y = x ∨ y ∈ l := by
  induction l with
  | nil => simp [insertDescBy]
  | cons z zs ih =>
      by_cases h : key z < key x
      · simp [insertDescBy, h, List.mem_cons]
      · simp only [insertDescBy, if_neg h, List.mem_cons, ih]
        tauto

theorem pairwise_insertDescBy {α β : Type} [LinearOrder β] (key : α → β) (x : α)
    (l : List α) (h : l.Pairwise (fun a b => key b ≤ key a)) :
    (insertDescBy key x l).Pairwise (fun a b => key b ≤ key a) := by
  induction l with
  | nil => simp [insertDescBy]
  | cons z zs ih =>
      rcases List.pairwise_cons.mp h with ⟨hz, hzs⟩
      by_cases hlt : key z < key x
      · simp only [insertDescBy, if_pos hlt]
        refine List.pairwise_cons.mpr ⟨?_, h⟩
        intro y hy
        rcases List.mem_cons.mp hy with hy | hy
        · exact hy ▸ le_of_lt hlt
        · exact le_trans (hz y hy) (le_of_lt hlt)
      · simp only [insertDescBy, if_neg hlt]
        refine List.pairwise_cons.mpr ⟨?_, ih hzs⟩
        intro y hy
        rcases (mem_insertDescBy key x zs y).mp hy with hy | hy
        · exact hy ▸ not_lt.mp hlt
        · exact hz y hy

theorem pairwise_sortDescBy {α β : Type} [LinearOrder β] (key : α → β) (l : List α) :
    (sortDescBy key l).Pairwise (fun a b => key b ≤ key a) := by
  induction l with
  | nil => exact List.Pairwise.nil
  | cons x xs ih => exact pairwise_insertDescBy key x (sortDescBy key xs) ih

/-- Claim C8: the invoice aggregates returned by `get_invoices` are sorted
descending by `invoice_date` when the date role is mapped to a present
column (aggregates without a date, rendered NaN, come last), descending by
`total_amount` otherwise; the result is truncated to `maxResults`; and on
the spec's end-to-end table the result is exactly `B2` (dated 2024-01-10)
before `A1` (earliest date 2024-01-05). -/
theorem C8_invoice_sort_order : ∀ (sch : Schema) (t : Table) (dr : Option DateRange)
    (cust : Option String) (ir : Bool) (mr : Nat),
    (roleIn sch.date t.cols = true →
      (get_invoices_core sch t dr cust ir mr).Pairwise
        (fun a b => sortKeyDate b ≤ sortKeyDate a)) ∧
    (roleIn sch.date t.cols = false →
      (get_invoices_core sch t dr cust ir mr).Pairwise
        (fun a b => b.total_amount ≤ a.total_amount)) ∧
    (get_invoices_core sch t dr cust ir mr).length ≤ mr ∧
    get_invoices_core exSchema exTable none none true 200 =
      [⟨.str "B2", 5, 1, some jan10, none, none⟩,
       ⟨.str "A1", 10, 2, some jan5, none, none⟩] := by
  intro sch t dr cust ir mr
  have hcols : (filterCustomer cust sch (filterDateRange dr sch (filterReturns ir sch t))).cols
      = t.cols := by
    rw [filterCustomer_cols, filterDateRange_cols, filterReturns_cols]
  have hconc : get_invoices_core exSchema exTable none none true 200 =
      [⟨.str "B2", 1 * 5 + 0, 1, some jan10, none, none⟩,
       ⟨.str "A1", 2 * 10 + (-1 * 10 + 0), 2, some jan5, none, none⟩] := rfl
  refine ⟨?_, ?_, ?_, by rw [hconc]; norm_num⟩
  · intro hdate
    simp only [get_invoices_core]
    split
    · exact List.Pairwise.nil
    · rw [hcols, hdate]
      simp only [if_pos rfl]
      exact (pairwise_sortDescBy sortKeyDate _).sublist (List.take_sublist _ _)
  · intro hdate
    simp only [get_invoices_core]
    split
    · exact List.Pairwise.nil
    · rw [hcols, hdate]
      simp only [Bool.false_eq_true, if_false]
      exact (pairwise_sortDescBy (fun a : InvoiceAgg => a.total_amount) _).sublist
        (List.take_sublist _ _)
  · simp only [get_invoices_core]
    split
    · simp
    · split <;> exact le_trans (List.length_take_le _ _) le_rfl

theorem C8_invoice_sort_order_witness :
    (get_invoices_core exSchema exTable none none true 200).Pairwise
      (fun a b => sortKeyDate b ≤ sortKeyDate a) :=
  (C8_invoice_sort_order exSchema exTable none none true 200).1 (by decide)

/-- Claim C7 counterexample: the normalizer is not idempotent.  `strip()`
runs before the hyphen/underscore runs are collapsed to spaces and before
`.`/`#` are removed, so a pass can create new leading/trailing or doubled
spaces: `_norm("-") = " "` while `_norm(" ") = ""`. -/
theorem C7_norm_not_idempotent_counterexample :
    norm (norm ['-']) ≠ norm ['-'] ∧ norm ['-'] = [' '] ∧ norm [' '] = [] ∧
    normStr (normStr "-") ≠ normStr "-" := by
  decide

theorem lowerLookup_not_mem : ∀ (t : List (Char × Char)) (c : Char),
    c ∉ t.map Prod.fst → lowerLookup c t = c := by
  intro t
  induction t with
  | nil => intro c _; rfl
  | cons p r ih =>
      intro c h
      obtain ⟨k, v⟩ := p
      simp only [List.map_cons, List.mem_cons, not_or] at h
      simp only [lowerLookup, if_neg h.1]
      exact ih c h.2

theorem lowerLookup_mem : ∀ (t : List (Char × Char)) (c : Char),
    c ∈ t.map Prod.fst → (c, lowerLookup c t) ∈ t := by
  intro t
  induction t with
  | nil => intro c h; simp at h
  | cons p r ih =>
      intro c h
      obtain ⟨k, v⟩ := p
      by_cases hk : c = k
      · subst hk
        simp [lowerLookup]
      · simp only [List.map_cons, List.mem_cons] at h
        rcases h with h | h
        · exact absurd h hk
        · simp only [lowerLookup, if_neg hk]
          exact List.mem_cons_of_mem _ (ih c h)

theorem lowerTable_vals_not_keys :
    ∀ p ∈ lowerTable, p.2 ∉ lowerTable.map Prod.fst := by decide

theorem lowerChar_idem (c : Char) : lowerChar (lowerChar c) = lowerChar c := by
  unfold lowerChar
  by_cases h : c ∈ lowerTable.map Prod.fst
  · exact lowerLookup_not_mem lowerTable (lowerLookup c lowerTable)
      (lowerTable_vals_not_keys (c, lowerLookup c lowerTable) (lowerLookup_mem lowerTable c h))
  · have hc := lowerLookup_not_mem lowerTable c h
    rw [hc]
    exact hc

theorem mem_dropWhile {p : Char → Bool} {l : List Char} {c : Char}
    (h : c ∈ l.dropWhile p) : c ∈ l :=
  (List.dropWhile_sublist p).subset h

theorem mem_stripWs {l : List Char} {c : Char} (h : c ∈ stripWs l) : c ∈ l := by
  unfold stripWs at h
  rw [List.mem_reverse] at h
  have h2 : c ∈ (l.dropWhile isWs).reverse := mem_dropWhile h
  rw [List.mem_reverse] at h2
  exact mem_dropWhile h2

theorem collapseAux_cons_sep_true (x : Char) (r : List Char) (hx : isSep x = true) :
    collapseAux true (x :: r) = collapseAux true r := by
  simp [collapseAux, hx]

theorem collapseAux_cons_sep_false (x : Char) (r : List Char) (hx : isSep x = true) :
    collapseAux false (x :: r) = ' ' :: collapseAux true r := by
  simp [collapseAux, hx]

theorem collapseAux_cons_nonsep (b : Bool) (x : Char) (r : List Char) (hx : isSep x = false) :
    collapseAux b (x :: r) = x :: collapseAux false r := by
  cases b <;> simp [collapseAux, hx]

theorem mem_collapseAux : ∀ (m : List Char) (b : Bool) (c : Char),
    c ∈ collapseAux b m → c = ' ' ∨ (c ∈ m ∧ isSep c = false) := by
  intro m
  induction m with
  | nil =>
      intro b c h
      simp [collapseAux] at h
  | cons x r ih =>
      intro b c h
      by_cases hx : isSep x = true
      · cases b with
        | true =>
            rw [collapseAux_cons_sep_true x r hx] at h
            rcases ih true c h with h | ⟨h1, h2⟩
            · exact Or.inl h
            · exact Or.inr ⟨List.mem_cons_of_mem _ h1, h2⟩
        | false =>
            rw [collapseAux_cons_sep_false x r hx] at h
            rcases List.mem_cons.mp h with h | h
            · exact Or.inl h
            · rcases ih true c h with h | ⟨h1, h2⟩
              · exact Or.inl h
              · exact Or.inr ⟨List.mem_cons_of_mem _ h1, h2⟩
      · have hx' : isSep x = false := by simpa using hx
        rw [collapseAux_cons_nonsep b x r hx'] at h
        rcases List.mem_cons.mp h with h | h
        · subst h
          exact Or.inr ⟨List.mem_cons_self _ _, hx'⟩
        · rcases ih false c h with h | ⟨h1, h2⟩
          · exact Or.inl h
          · exact Or.inr ⟨List.mem_cons_of_mem _ h1, h2⟩

theorem goodChar_space : goodChar ' ' :=
  ⟨by decide, fun _ => rfl, by decide, by decide⟩

theorem good_norm (l : List Char) : ∀ c ∈ norm l, goodChar c := by
  intro c hc
  unfold norm stripDots at hc
  rw [List.mem_filter] at hc
  obtain ⟨hmem, hdots⟩ := hc
  have hdot : c ≠ '.' ∧ c ≠ '#' := by
    constructor <;> (intro h; subst h; simp at hdots)
  rcases mem_collapseAux _ false c hmem with h | ⟨h1, h2⟩
  · subst h
    exact goodChar_space
  · have hlower : lowerChar c = c := by
      have hm := mem_stripWs h1
      rw [List.mem_map] at hm
      obtain ⟨x, _, hx⟩ := hm
      rw [← hx]
      exact lowerChar_idem x
    refine ⟨hlower, ?_, hdot.1, hdot.2⟩
    intro hsep
    rw [h2] at hsep
    exact Bool.noConfusion hsep

theorem isSep_of_isWs (c : Char) (h : isWs c = true) : isSep c = true := by
  simp [isSep, h]

theorem headOk_collapse_true : ∀ m : List Char, headOkSep (collapseAux true m) = true := by
  intro m
  induction m with
  | nil => rfl
  | cons x r ih =>
      by_cases hx : isSep x = true
      · rw [collapseAux_cons_sep_true x r hx]
        exact ih
      · have hx' : isSep x = false := by simpa using hx
        rw [collapseAux_cons_nonsep true x r hx']
        simp [headOkSep, hx']

theorem noDouble_cons_space (x : List Char) (hh : headOkSep x = true)
    (hx : noDoubleSep x = true) : noDoubleSep (' ' :: x) = true := by
  cases x with
  | nil => rfl
  | cons d r =>
      have hd : isSep d = false := by simpa [headOkSep] using hh
      simp [noDoubleSep, hd, hx]

theorem noDouble_cons_nonsep (c : Char) (x : List Char) (hc : isSep c = false)
    (hx : noDoubleSep x = true) : noDoubleSep (c :: x) = true := by
  cases x with
  | nil => rfl
  | cons d r => simp [noDoubleSep, hc, hx]

theorem noDouble_collapse : ∀ (m : List Char) (b : Bool),
    noDoubleSep (collapseAux b m) = true := by
  intro m
  induction m with
  | nil => intro b; rfl
  | cons x r ih =>
      intro b
      by_cases hx : isSep x = true
      · cases b with
        | true =>
            rw [collapseAux_cons_sep_true x r hx]
            exact ih true
        | false =>
            rw [collapseAux_cons_sep_false x r hx]
            exact noDouble_cons_space _ (headOk_collapse_true r) (ih true)
      · have hx' : isSep x = false := by simpa using hx
        rw [collapseAux_cons_nonsep b x r hx']
        exact noDouble_cons_nonsep x _ hx' (ih false)

theorem collapse_getLast : ∀ (m : List Char) (b : Bool) (d : Char),
    m.getLast? = some d → isSep d = false → (collapseAux b m).getLast? = some d := by
  intro m
  induction m with
  | nil =>
      intro b d h _
      simp at h
  | cons x r ih =>
      intro b d h hd
      cases r with
      | nil =>
          rw [List.getLast?_singleton] at h
          obtain rfl : x = d := by injection h
          rw [collapseAux_cons_nonsep b x [] hd]
          rfl
      | cons y r' =>
          rw [List.getLast?_cons_cons] at h
          by_cases hx : isSep x = true
          · cases b with
            | true =>
                rw [collapseAux_cons_sep_true x _ hx]
                exact ih true d h hd
            | false =>
                rw [collapseAux_cons_sep_false x _ hx]
                have hres := ih true d h hd
                cases hcol : collapseAux true (y :: r') with
                | nil => rw [hcol] at hres; simp at hres
                | cons z zs =>
                    rw [hcol] at hres
                    rw [List.getLast?_cons_cons]
                    exact hres
          · have hx' : isSep x = false := by simpa using hx
            rw [collapseAux_cons_nonsep b x _ hx']
            have hres := ih false d h hd
            cases hcol : collapseAux false (y :: r') with
            | nil => rw [hcol] at hres; simp at hres
            | cons z zs =>
                rw [hcol] at hres
                rw [List.getLast?_cons_cons]
                exact hres

theorem collapseAux_true_eq_false (x : List Char) (h : headOkSep x = true) :
    collapseAux true x = collapseAux false x := by
  cases x with
  | nil => rfl
  | cons c r =>
      have hc : isSep c = false := by simpa [headOkSep] using h
      rw [collapseAux_cons_nonsep true c r hc, collapseAux_cons_nonsep false c r hc]

theorem noDouble_tail (c : Char) (x : List Char) (h : noDoubleSep (c :: x) = true) :
    noDoubleSep x = true := by
  cases x with
  | nil => rfl
  | cons d r =>
      simp only [noDoubleSep, Bool.and_eq_true] at h
      exact h.2

theorem noDouble_head (c : Char) (x : List Char) (hc : isSep c = true)
    (h : noDoubleSep (c :: x) = true) : headOkSep x = true := by
  cases x with
  | nil => rfl
  | cons d r =>
      cases hsd : isSep d with
      | false => simp [headOkSep, hsd]
      | true =>
          exfalso
          simp [noDoubleSep, hc, hsd] at h

theorem collapse_eq_self : ∀ x : List Char, (∀ c ∈ x, isSep c = true → c = ' ') →
    noDoubleSep x = true → collapseAux false x = x := by
  intro x
  induction x with
  | nil => intro _ _; rfl
  | cons c r ih =>
      intro hgood hnd
      by_cases hc : isSep c = true
      · have hsp : c = ' ' := hgood c (by simp) hc
        rw [collapseAux_cons_sep_false c r hc,
          collapseAux_true_eq_false r (noDouble_head c r hc hnd),
          ih (fun c' h' hs => hgood c' (by simp [h']) hs) (noDouble_tail c r hnd), hsp]
      · have hc' : isSep c = false := by simpa using hc
        rw [collapseAux_cons_nonsep false c r hc',
          ih (fun c' h' hs => hgood c' (by simp [h']) hs) (noDouble_tail c r hnd)]

theorem dropWhile_head_false {p : Char → Bool} : ∀ (l : List Char) (c : Char) (r : List Char),
    l.dropWhile p = c :: r → p c = false := by
  intro l
  induction l with
  | nil => intro c r h; simp at h
  | cons x xs ih =>
      intro c r h
      by_cases hx : p x = true
      · rw [List.dropWhile_cons_of_pos hx] at h
        exact ih c r h
      · rw [List.dropWhile_cons_of_neg hx] at h
        injection h with h1 h2
        subst h1
        simpa using hx

theorem dropWhile_append_single {p : Char → Bool} (a : Char) (ha : p a = false) :
    ∀ xs : List Char, ∃ z, (xs ++ [a]).dropWhile p = z ++ [a] := by
  intro xs
  induction xs with
  | nil =>
      refine ⟨[], ?_⟩
      simp [List.dropWhile_cons, ha]
  | cons x r ih =>
      by_cases hx : p x = true
      · obtain ⟨z, hz⟩ := ih
        refine ⟨z, ?_⟩
        simp only [List.cons_append, List.dropWhile_cons_of_pos hx]
        exact hz
      · refine ⟨x :: r, ?_⟩
        simp only [List.cons_append, List.dropWhile_cons_of_neg hx]

theorem stripWs_head_not_ws (l : List Char) (c : Char)
    (h : (stripWs l).head? = some c) : isWs c = false := by
  unfold stripWs at h
  cases hA : l.dropWhile isWs with
  | nil => rw [hA] at h; simp at h
  | cons a A =>
      have ha : isWs a = false := dropWhile_head_false l a A hA
      rw [hA, List.reverse_cons] at h
      obtain ⟨z, hz⟩ := dropWhile_append_single a ha A.reverse
      rw [hz, List.reverse_append] at h
      simp only [List.reverse_cons, List.reverse_nil, List.nil_append, List.cons_append,
        List.head?_cons, Option.some.injEq] at h
      rw [← h]
      exact ha

theorem stripWs_getLast_not_ws (l : List Char) (c : Char)
    (h : (stripWs l).getLast? = some c) : isWs c = false := by
  unfold stripWs at h
  rw [List.getLast?_reverse] at h
  cases hX : (l.dropWhile isWs).reverse.dropWhile isWs with
  | nil => rw [hX] at h; simp at h
  | cons d X =>
      rw [hX] at h
      simp only [List.head?_cons, Option.some.injEq] at h
      rw [← h]
      exact dropWhile_head_false _ d X hX

theorem dropWhile_eq_self_of_head {p : Char → Bool} (u : List Char)
    (h : ∀ c, u.head? = some c → p c = false) : u.dropWhile p = u := by
  cases u with
  | nil => rfl
  | cons c r =>
      have hc : p c = false := h c rfl
      simp [List.dropWhile_cons, hc]

theorem stripWs_eq_self (u : List Char)
    (hh : ∀ c, u.head? = some c → isWs c = false)
    (hl : ∀ c, u.getLast? = some c → isWs c = false) : stripWs u = u := by
  unfold stripWs
  have h2 : u.reverse.dropWhile isWs = u.reverse := by
    apply dropWhile_eq_self_of_head
    intro c hc
    rw [List.head?_reverse] at hc
    exact hl c hc
  rw [dropWhile_eq_self_of_head u hh, h2, List.reverse_reverse]

theorem map_lower_fixed (u : List Char) (h : ∀ c ∈ u, goodChar c) :
    u.map lowerChar = u := by
  have hcongr := List.map_congr_left (l := u) (f := lowerChar) (g := id)
    (fun a ha => (h a ha).1)
  simpa using hcongr

theorem norm_eq_self (u : List Char) (hgood : ∀ c ∈ u, goodChar c)
    (hh : headOkSep u = true) (hl : lastOkSep u = true)
    (hnd : noDoubleSep u = true) : norm u = u := by
  have hws_head : ∀ c, u.head? = some c → isWs c = false := by
    intro c hc
    cases u with
    | nil => simp at hc
    | cons d r =>
        simp only [List.head?_cons, Option.some.injEq] at hc
        have hsep : isSep c = false := by
          rw [← hc]
          simpa [headOkSep] using hh
        cases hw : isWs c with
        | false => rfl
        | true => rw [isSep_of_isWs c hw] at hsep; exact Bool.noConfusion hsep
  have hws_last : ∀ c, u.getLast? = some c → isWs c = false := by
    intro c hc
    have hsep : isSep c = false := by
      unfold lastOkSep at hl
      rw [hc] at hl
      simpa using hl
    cases hw : isWs c with
    | false => rfl
    | true => rw [isSep_of_isWs c hw] at hsep; exact Bool.noConfusion hsep
  unfold norm collapseSeps stripDots
  rw [map_lower_fixed u hgood, stripWs_eq_self u hws_head hws_last,
    collapse_eq_self u (fun c hc hs => (hgood c hc).2.1 hs) hnd]
  apply List.filter_eq_self.mpr
  intro a ha
  have hga := hgood a ha
  simp [hga.2.2.1, hga.2.2.2]

theorem norm_norm_of_good (t : List Char) (hgood : ∀ c ∈ t, goodChar c) :
    norm (norm t) = norm t := by
  have hmap : t.map lowerChar = t := map_lower_fixed t hgood
  have hw_good : ∀ c ∈ stripWs t, goodChar c := fun c hc => hgood c (mem_stripWs hc)
  have hnormt : norm t = collapseAux false (stripWs t) := by
    unfold norm collapseSeps stripDots
    rw [hmap]
    apply List.filter_eq_self.mpr
    intro a ha
    rcases mem_collapseAux (stripWs t) false a ha with h | ⟨h1, _⟩
    · subst h; decide
    · have hga := hw_good a h1
      simp [hga.2.2.1, hga.2.2.2]
  have hu_good : ∀ c ∈ collapseAux false (stripWs t), goodChar c := by
    intro c hc
    rcases mem_collapseAux (stripWs t) false c hc with h | ⟨h1, _⟩
    · subst h; exact goodChar_space
    · exact hw_good c h1
  have hu_head : headOkSep (collapseAux false (stripWs t)) = true := by
    cases hwc : stripWs t with
    | nil => rfl
    | cons d r =>
        have hd : isWs d = false := stripWs_head_not_ws t d (by rw [hwc]; rfl)
        have hgd : goodChar d := hw_good d (by rw [hwc]; simp)
        have hdsep : isSep d = false := by
          cases hs : isSep d with
          | false => rfl
          | true =>
              rw [hgd.2.1 hs] at hd
              exact Bool.noConfusion hd
        rw [collapseAux_cons_nonsep false d r hdsep]
        simp [headOkSep, hdsep]
  have hu_last : lastOkSep (collapseAux false (stripWs t)) = true := by
    cases hlast : (stripWs t).getLast? with
    | none =>
        have hwnil : stripWs t = [] := by
          cases hwc : stripWs t with
          | nil => rfl
          | cons d r => rw [hwc] at hlast; simp at hlast
        rw [hwnil]
        rfl
    | some d =>
        have hd : isWs d = false := stripWs_getLast_not_ws t d hlast
        have hgd : goodChar d := hw_good d (List.mem_of_getLast?_eq_some hlast)
        have hdsep : isSep d = false := by
          cases hs : isSep d with
          | false => rfl
          | true =>
              rw [hgd.2.1 hs] at hd
              exact Bool.noConfusion hd
        have hres := collapse_getLast (stripWs t) false d hlast hdsep
        unfold lastOkSep
        rw [hres]
        simp [hdsep]
  have hu_nd : noDoubleSep (collapseAux false (stripWs t)) = true :=
    noDouble_collapse (stripWs t) false
  rw [hnormt]
  exact norm_eq_self _ hu_good hu_head hu_last hu_nd

/-- Claim C7 (amended): the normalizer is not idempotent in one pass, but
stabilizes after two: for every header string,
`normalize(normalize(normalize(s))) = normalize(normalize(s))` — the claim
holds with `normalize` replaced by its own second iterate, the minimal
repair the counterexample forces. -/
theorem C7_norm_stabilizes_amended : ∀ (l : List Char) (s : String),
    norm (norm (norm l)) = norm (norm l) ∧
    normStr (normStr (normStr s)) = normStr (normStr s) := by
  have key : ∀ m : List Char, norm (norm (norm m)) = norm (norm m) :=
    fun m => norm_norm_of_good (norm m) (good_norm m)
  intro l s
  refine ⟨key l, ?_⟩
  show (⟨norm (norm (norm s.data))⟩ : String) = ⟨norm (norm s.data)⟩
  rw [key s.data]

end FinanceTools
